import Mathlib

/-!
Verification development for the Stock Analytics API (src/main.py).

The Python module is shallowly embedded below: every model definition
mirrors one function or class of the source, with timestamps, prices and
durations represented as rationals, Python `None` as `Option.none`, and
`time.sleep` as an exact advance of the model clock.  Mutable module
state (the throttle timestamp, the cache store, the limiter hit map, the
WebSocket pool) is threaded explicitly.
-/

namespace StockApi

/-! ## Throttle (src/main.py lines 43-54) -/

/-- Embeds YAHOO_MIN_GAP (line 43): minimum seconds between upstream calls. -/
def YAHOO_MIN_GAP : ℚ := 2

/-- Embeds yahoo_throttle (lines 47-54).  Input: the stored module-level
last-call timestamp and the current clock.  Output: the clock value at the
moment the function returns, which is also the value written back into the
shared last-call timestamp.  Note the timestamp is written when the throttle
releases, before the upstream call is made, not when the call returns. -/
def yahoo_throttle (last now : ℚ) : ℚ :=
  if 0 < YAHOO_MIN_GAP - (now - last) then now + (YAHOO_MIN_GAP - (now - last)) else now

/-- Runs a sequence of throttled upstream calls, sequentially.  Each input
pair is (delay after the previous call returned before the next caller
invokes the throttle, duration of the upstream call itself).  State: the
stored last-call timestamp and the current clock.  Output: for each call,
the pair (time the upstream call started, time it returned). -/
def runCalls : ℚ → ℚ → List (ℚ × ℚ) → List (ℚ × ℚ)
  | _, _, [] => []
  | last, clock, (delay, dur) :: rest =>
    let start := yahoo_throttle last (clock + delay)
    (start, start + dur) :: runCalls start (start + dur) rest

/-! ## Upstream fetch with retry (src/main.py lines 57-67 and 392-395) -/

/-- Outcome of one upstream call: a value, or an exception message. -/
inductive Fetched (α : Type) where
  | ok (value : α)
  | err (msg : String)
deriving DecidableEq

/-- Observable trace of one fetch operation: its final outcome, how many
upstream calls it made, and how many cooldown seconds it slept. -/
structure CallTrace (α : Type) where
  result : Fetched α
  upstreamCalls : ℕ
  sleptSeconds : ℚ
deriving DecidableEq

/-- Char-list helper: the first list is an initial segment of the second. -/
def leadsWith : List Char → List Char → Bool
  | [], _ => true
  | _ :: _, [] => false
  | p :: ps, c :: cs => p == c && leadsWith ps cs

/-- Char-list helper: the pattern occurs contiguously inside the list. -/
def occursIn (pat : List Char) : List Char → Bool
  | [] => leadsWith pat []
  | c :: cs => leadsWith pat (c :: cs) || occursIn pat cs

/-- Embeds the Python substring test `pat in s`. -/
def strIn (pat s : String) : Bool := occursIn pat.data s.data

/-- Embeds the condition on line 63:
`"Too Many Requests" in str(e) or "Rate" in str(e)`. -/
def isRateErr (msg : String) : Bool :=
  strIn "Too Many Requests" msg || strIn "Rate" msg

/-- Embeds safe_history (lines 57-67).  The upstream provider is modelled
as a stream of outcomes, one per attempted call; attempt n is `attempts n`.
A first rate-limit failure sleeps 30 seconds and retries exactly once; the
second attempt is not guarded, so its outcome (success or error) surfaces.
Any other first failure surfaces immediately. -/
def safe_history {α : Type} (attempts : ℕ → Fetched α) : CallTrace α :=
  match attempts 0 with
  | Fetched.ok v => ⟨Fetched.ok v, 1, 0⟩
  | Fetched.err m =>
    if isRateErr m then ⟨attempts 1, 2, 30⟩ else ⟨Fetched.err m, 1, 0⟩

/-- Embeds the history fetch inside fetch_quote_data (lines 393-395):
`yahoo_throttle(); stock = yf.Ticker(ticker); hist = stock.history(period="5d")`.
There is no try/except around this call, so it makes exactly one upstream
call and never sleeps: any error propagates to the caller. -/
def quote_history_fetch {α : Type} (attempts : ℕ → Fetched α) : CallTrace α :=
  ⟨attempts 0, 1, 0⟩

/-! ## TTLCache (src/main.py lines 71-95) -/

/-- Looks up the binding of a key in the store, mirroring a dict read. -/
def lookupEntry {α : Type} : List (String × ℚ × α) → String → Option (ℚ × α)
  | [], _ => none
  | (k, e, v) :: rest, key => if k = key then some (e, v) else lookupEntry rest key

/-- Deletes the binding of a key, mirroring `del self._store[key]`. -/
def delKey {α : Type} : List (String × ℚ × α) → String → List (String × ℚ × α)
  | [], _ => []
  | (k, e, v) :: rest, key => if k = key then rest else (k, e, v) :: delKey rest key

/-- Writes the binding of a key, mirroring `self._store[key] = ...`: an
existing binding is replaced in place, otherwise the binding is appended. -/
def setKey {α : Type} : List (String × ℚ × α) → String → ℚ → α → List (String × ℚ × α)
  | [], key, e, v => [(key, e, v)]
  | (k, e0, v0) :: rest, key, e, v =>
    if k = key then (k, e, v) :: rest else (k, e0, v0) :: setKey rest key e v

/-- Embeds the TTLCache state (lines 71-74): `_store` maps keys to pairs
(expires_at, value); `_max` is the target capacity.  A Python dict is a
sequence of bindings with pairwise distinct keys; the store is that
sequence of bindings. -/
structure TTLCache (α : Type) where
  store : List (String × ℚ × α)
  maxSize : ℕ
deriving DecidableEq

/-- Embeds TTLCache.get (lines 76-83), with `now` standing for the
`time.time()` read on line 80.  Returns the fetched value (or none) and
the cache state afterwards. -/
def TTLCache.get {α : Type} (c : TTLCache α) (now : ℚ) (key : String) :
    Option α × TTLCache α :=
  match lookupEntry c.store key with
  | none => (none, c)
  | some (e, v) => if e ≤ now then (none, ⟨delKey c.store key, c.maxSize⟩) else (some v, c)

/-- Embeds TTLCache.set (lines 85-91), with `now` standing for the
`time.time()` reads on lines 87 and 91.  At capacity, entries whose
expiry is not in the future are purged first; then the binding is written
with expiry now + ttl. -/
def TTLCache.set {α : Type} (c : TTLCache α) (now : ℚ) (key : String) (value : α)
    (ttl : ℚ) : TTLCache α :=
  let purged :=
    if c.maxSize ≤ c.store.length then c.store.filter (fun p => now < p.2.1) else c.store
  ⟨setKey purged key (now + ttl) value, c.maxSize⟩

/-! ## RateLimiter (src/main.py lines 102-117) -/

/-- Embeds the RateLimiter state (lines 102-106).  `hits` is the
defaultdict mapping a client key to its recorded timestamps; a key that
was never written maps to the empty list, exactly as a defaultdict read. -/
structure RateLimiter where
  hits : String → List ℚ
  limit : ℕ
  window : ℚ

/-- Embeds RateLimiter.allow (lines 108-117): prune timestamps at or
before now - window (the comprehension keeps `t > cutoff`), store the
pruned list, reject when its length reaches the limit, otherwise append
`now` and accept. -/
def RateLimiter.allow (rl : RateLimiter) (client : String) (now : ℚ) :
    Bool × RateLimiter :=
  let pruned := (rl.hits client).filter fun t => now - rl.window < t
  if rl.limit ≤ pruned.length then
    (false, { rl with hits := fun c => if c = client then pruned else rl.hits c })
  else
    (true, { rl with hits := fun c => if c = client then pruned ++ [now] else rl.hits c })

/-- Runs a sequence of allow calls, returning the verdicts in order. -/
def runAllow : RateLimiter → List (String × ℚ) → List Bool
  | _, [] => []
  | rl, (c, t) :: rest => (rl.allow c t).1 :: runAllow (rl.allow c t).2 rest

/-! ## Signal engine (src/main.py lines 212-306) -/

/-- The three judgments a signal can carry. -/
inductive Judgment where
  | BUY
  | SELL
  | NEUTRAL
deriving DecidableEq

/-- Embeds one emitted signal dict: indicator name, judgment, optional
rounded value, and the detail text.  Numeric interpolation inside detail
strings (for the RSI and stochastic rules) is elided; the MACD and
Bollinger detail strings are kept verbatim. -/
structure Signal where
  indicator : String
  judgment : Judgment
  value : Option ℚ
  detail : String
deriving DecidableEq

/-- Embeds Python `round(x, d)`.  Mathlib round breaks ties upward while
Python breaks ties to even; no statement below evaluates it at a tie. -/
def roundTo (d : ℕ) (x : ℚ) : ℚ := (round (x * 10 ^ d) : ℤ) / 10 ^ d

/-- One row of the enriched frame as the signal engine reads it: the close
price plus the indicator columns consulted by evaluate.  A missing or NaN
cell is `none` (the `safe` helper and `pd.notnull` both map it to no
value). -/
structure Row where
  close : ℚ
  rsi_14 : Option ℚ
  macd : Option ℚ
  macd_signal : Option ℚ
  bb_upper : Option ℚ
  bb_lower : Option ℚ
  stoch_k : Option ℚ
  vwap : Option ℚ
deriving DecidableEq

/-- Embeds the RSI block of SignalEngine.evaluate (lines 228-241). -/
def rsiRule (rsi : Option ℚ) : List Signal :=
  match rsi with
  | none => []
  | some r =>
    if r < 30 then [⟨"RSI", Judgment.BUY, some (roundTo 1 r), "oversold"⟩]
    else if 70 < r then [⟨"RSI", Judgment.SELL, some (roundTo 1 r), "overbought"⟩]
    else [⟨"RSI", Judgment.NEUTRAL, some (roundTo 1 r), "neutral"⟩]

/-- Embeds the MACD block of SignalEngine.evaluate (lines 244-263).  The
four inputs are current macd, current macd_signal, previous macd and
previous macd_signal; the block runs only when all four are non-null. -/
def macdRule (m ms pm ps : Option ℚ) : List Signal :=
  match m, ms, pm, ps with
  | some m, some ms, some pm, some ps =>
    if pm ≤ ps ∧ ms < m then
      [⟨"MACD", Judgment.BUY, some (roundTo 4 m), "Bullish crossover"⟩]
    else if ps ≤ pm ∧ m < ms then
      [⟨"MACD", Judgment.SELL, some (roundTo 4 m), "Bearish crossover"⟩]
    else if ms < m then
      [⟨"MACD", Judgment.BUY, some (roundTo 4 m), "MACD above signal"⟩]
    else
      [⟨"MACD", Judgment.SELL, some (roundTo 4 m), "MACD below signal"⟩]
  | _, _, _, _ => []

/-- Embeds the Bollinger block of SignalEngine.evaluate (lines 266-277).
Line 267 reads `if bbu and bbl:`, a Python truthiness test on optional
floats, so the block runs only when each band is present and nonzero. -/
def bollingerRule (price : ℚ) (bbu bbl : Option ℚ) : List Signal :=
  match bbu, bbl with
  | some u, some l =>
    if u ≠ 0 ∧ l ≠ 0 then
      if u ≤ price then [⟨"Bollinger", Judgment.SELL, none, "Price at upper band"⟩]
      else if price ≤ l then [⟨"Bollinger", Judgment.BUY, none, "Price at lower band"⟩]
      else [⟨"Bollinger", Judgment.NEUTRAL, none, "Price inside bands"⟩]
    else []
  | _, _ => []

/-- Embeds the stochastic block of SignalEngine.evaluate (lines 280-294). -/
def stochRule (sk : Option ℚ) : List Signal :=
  match sk with
  | none => []
  | some k =>
    if k < 20 then [⟨"Stochastic", Judgment.BUY, some (roundTo 1 k), "oversold"⟩]
    else if 80 < k then [⟨"Stochastic", Judgment.SELL, some (roundTo 1 k), "overbought"⟩]
    else [⟨"Stochastic", Judgment.NEUTRAL, some (roundTo 1 k), "neutral"⟩]

/-- Embeds the VWAP block of SignalEngine.evaluate (lines 297-304).  Line
298 reads `if vw:`, again a truthiness test, so zero VWAP is skipped. -/
def vwapRule (price : ℚ) (vw : Option ℚ) : List Signal :=
  match vw with
  | none => []
  | some v =>
    if v ≠ 0 then
      [⟨"VWAP", if v < price then Judgment.BUY else Judgment.SELL, some (roundTo 2 v),
        if v < price then "Price above VWAP" else "Price below VWAP"⟩]
    else []

/-- Embeds SignalEngine.evaluate (lines 213-306): with fewer than two rows
the result is empty; otherwise the five rule blocks run in order on the
last row (cur) and the second-to-last row (prev). -/
def SignalEngine.evaluate (df : List Row) : List Signal :=
  match df.reverse with
  | cur :: prev :: _ =>
    rsiRule cur.rsi_14 ++
      macdRule cur.macd cur.macd_signal prev.macd prev.macd_signal ++
      bollingerRule cur.close cur.bb_upper cur.bb_lower ++
      stochRule cur.stoch_k ++
      vwapRule cur.close cur.vwap
  | _ => []

/-! ## Aggregate judgment (src/main.py lines 608-612) -/

/-- Embeds the counters on lines 608-610: `sum(1 for s in sigs if ...)`. -/
def countJudgment (sigs : List Signal) (j : Judgment) : ℕ :=
  (sigs.filter fun s => s.judgment == j).length

/-- Embeds line 612:
`overall = "BUY" if buys > sells else "SELL" if sells > buys else "NEUTRAL"`. -/
def overallJudgment (sigs : List Signal) : Judgment :=
  if countJudgment sigs Judgment.SELL < countJudgment sigs Judgment.BUY then Judgment.BUY
  else if countJudgment sigs Judgment.BUY < countJudgment sigs Judgment.SELL then Judgment.SELL
  else Judgment.NEUTRAL

/-! ## Fibonacci endpoint (src/main.py lines 636-654) -/

/-- Embeds the levels dict built by get_fibonacci (lines 638-653) from the
period high and low: `hi = max(High)`, `lo = min(Low)`, `diff = hi - lo`,
each value passed through `round(, 2)`. -/
def get_fibonacci (hi lo : ℚ) : List (String × ℚ) :=
  [("0.0%", roundTo 2 hi),
   ("23.6%", roundTo 2 (hi - 236 / 1000 * (hi - lo))),
   ("38.2%", roundTo 2 (hi - 382 / 1000 * (hi - lo))),
   ("50.0%", roundTo 2 (hi - 500 / 1000 * (hi - lo))),
   ("61.8%", roundTo 2 (hi - 618 / 1000 * (hi - lo))),
   ("78.6%", roundTo 2 (hi - 786 / 1000 * (hi - lo))),
   ("100.0%", roundTo 2 lo)]

/-! ## WebSocket manager (src/main.py lines 310-339) -/

/-- Looks up the subscriber list bound to a ticker, mirroring a dict read
on the pool.  Connections are identified by numeric ids. -/
def poolLookup : List (String × List ℕ) → String → Option (List ℕ)
  | [], _ => none
  | (k, l) :: rest, key => if k = key then some l else poolLookup rest key

/-- Embeds `self._pool.get(ticker, [])`. -/
def poolGet (pool : List (String × List ℕ)) (key : String) : List ℕ :=
  (poolLookup pool key).getD []

/-- Embeds `list.remove(x)`: drop the first occurrence, if any. -/
def removeFirst : List ℕ → ℕ → List ℕ
  | [], _ => []
  | x :: xs, a => if x = a then xs else x :: removeFirst xs a

/-- Embeds the WSManager state (lines 310-312): the per-ticker pool.  A
Python dict is a sequence of bindings with pairwise distinct keys. -/
structure WSManager where
  pool : List (String × List ℕ)

/-- Embeds WSManager.broadcast (lines 326-335).  Sending is modelled by
the predicate sendFails on connection ids.  The loop first collects
`dead`, the subscribers whose send raised, then removes each of them from
the list bound to the ticker (the `if ws in ...` guard before `remove` is
the identity here because removing an absent element is a no-op).  No
branch ever deletes the ticker key itself. -/
def WSManager.broadcast (m : WSManager) (ticker : String) (sendFails : ℕ → Bool) :
    WSManager :=
  let dead := (poolGet m.pool ticker).filter sendFails
  ⟨m.pool.map fun e => if e.1 = ticker then (e.1, dead.foldl removeFirst e.2) else e⟩

/-- Embeds WSManager.disconnect (lines 319-324): remove the connection
from the list bound to the ticker if present, then drop the ticker key
entirely when its list has become empty. -/
def WSManager.disconnect (m : WSManager) (ticker : String) (ws : ℕ) : WSManager :=
  let p1 :=
    if ws ∈ poolGet m.pool ticker then
      m.pool.map fun e => if e.1 = ticker then (e.1, removeFirst e.2 ws) else e
    else m.pool
  ⟨if poolLookup p1 ticker = some [] then p1.filter (fun e => decide (e.1 ≠ ticker)) else p1⟩

/-! ## Quote computation (src/main.py lines 400-428) -/

/-- The price fields of the quote dict built by fetch_quote_data. -/
structure Quote where
  price : ℚ
  change : ℚ
  change_percent : ℚ
  prev_close : ℚ
deriving DecidableEq

/-- Embeds lines 400-404 and 413-421 of fetch_quote_data, applied to the
Close column of the fetched history (empty histories raise 404 on line
398, modelled as none).  prev_close falls back to 0 for a single-bar
history, and the percent division only runs when prev_close is truthy. -/
def fetch_quote_calc (closes : List ℚ) : Option Quote :=
  match closes.reverse with
  | [] => none
  | price :: rest =>
    let prev_close : ℚ := if 1 < closes.length then rest.headD 0 else 0
    let change := price - prev_close
    let pct := if prev_close ≠ 0 then change / prev_close * 100 else 0
    some ⟨roundTo 2 price, roundTo 2 change, roundTo 2 pct, roundTo 2 prev_close⟩

/-! ## Theorems -/

/-- Helper: one throttle acquisition always releases at least MIN_GAP after
the stored last-call timestamp. -/
theorem le_yahoo_throttle (last now : ℚ) :
    last + YAHOO_MIN_GAP ≤ yahoo_throttle last now := by
  unfold yahoo_throttle
  split_ifs with h
  · linarith
  · linarith

/-- Helper: every call start in a run lies at least MIN_GAP after the
initial stored timestamp. -/
theorem runCalls_start_lb (calls : List (ℚ × ℚ)) :
    ∀ (last clock : ℚ), ∀ p ∈ runCalls last clock calls, last + YAHOO_MIN_GAP ≤ p.1 := by
  induction calls with
  | nil =>
    intro last clock p hp
    simp [runCalls] at hp
  | cons hd tl ih =>
    intro last clock p hp
    obtain ⟨delay, dur⟩ := hd
    simp only [runCalls, List.mem_cons] at hp
    rcases hp with rfl | hp
    · exact le_yahoo_throttle last (clock + delay)
    · have h1 := le_yahoo_throttle last (clock + delay)
      have h2 := ih _ _ p hp
      have hg : (0 : ℚ) ≤ YAHOO_MIN_GAP := by norm_num [YAHOO_MIN_GAP]
      linarith

/-- Claim C1 (amended): the throttle guarantees at least MIN_GAP between
consecutive upstream-call starts (the moments yahoo_throttle releases and
writes the shared timestamp), for every sequence of sequential callers;
the guarantee is measured from the previous call start, not from the
previous call return. -/
theorem yahoo_throttle_min_gap_between_starts (last clock : ℚ) (calls : List (ℚ × ℚ)) :
    List.Pairwise (fun a b : ℚ × ℚ => a.1 + YAHOO_MIN_GAP ≤ b.1)
      (runCalls last clock calls) := by
  induction calls generalizing last clock with
  | nil => simp [runCalls]
  | cons hd tl ih =>
    obtain ⟨delay, dur⟩ := hd
    simp only [runCalls]
    refine List.pairwise_cons.mpr ⟨?_, ih _ _⟩
    intro p hp
    exact runCalls_start_lb tl _ _ p hp

/-- Claim C1 counterexample: a run of two calls in which the first
upstream call takes 1 second.  The two calls complete at times 3 and 4,
an interval of 1 < MIN_GAP, and the second call also starts only 1 second
after the first returned, because yahoo_throttle measures the gap from
the moment the previous call started. -/
theorem yahoo_throttle_completion_gap_cex :
    runCalls 0 2 [(0, 1), (0, 0)] = [(2, 3), (4, 4)] ∧
    (4 : ℚ) - 3 < YAHOO_MIN_GAP := by
  constructor
  · norm_num [runCalls, yahoo_throttle, YAHOO_MIN_GAP]
  · norm_num [YAHOO_MIN_GAP]

/-- Claim C2 counterexample: on a too-many-requests error the quote fetch
inside fetch_quote_data makes exactly one upstream call and does not
retry, while safe_history retries (two upstream calls). -/
theorem quote_fetch_no_retry_cex :
    (quote_history_fetch (fun _ => (Fetched.err "Too Many Requests" : Fetched ℕ))).upstreamCalls
        = 1 ∧
    (safe_history (fun _ => (Fetched.err "Too Many Requests" : Fetched ℕ))).upstreamCalls
        = 2 := by
  constructor
  · rfl
  · decide

/-- Claim C2 (amended): safe_history (used by fetch_enriched) performs
exactly one retry after a 30 second cooldown on a rate-limit error, at
most two upstream calls in total, with the second outcome surfacing; the
quote history fetch in fetch_quote_data performs no retry at all. -/
theorem safe_history_single_retry {α : Type} (attempts : ℕ → Fetched α) (m : String) :
    (∀ v, attempts 0 = Fetched.ok v → safe_history attempts = ⟨Fetched.ok v, 1, 0⟩) ∧
    (attempts 0 = Fetched.err m → isRateErr m = true →
      safe_history attempts = ⟨attempts 1, 2, 30⟩) ∧
    (attempts 0 = Fetched.err m → isRateErr m = false →
      safe_history attempts = ⟨Fetched.err m, 1, 0⟩) ∧
    (safe_history attempts).upstreamCalls ≤ 2 ∧
    quote_history_fetch attempts = ⟨attempts 0, 1, 0⟩ := by
  refine ⟨?_, ?_, ?_, ?_, rfl⟩
  · intro v hv
    simp [safe_history, hv]
  · intro hm hr
    simp [safe_history, hm, hr]
  · intro hm hr
    simp [safe_history, hm, hr]
  · unfold safe_history
    cases h : attempts 0 with
    | ok v => simp
    | err m2 =>
      dsimp only
      split_ifs <;> simp

/-- Witness for safe_history_single_retry at a concrete attempt stream
whose first call is rate limited and whose second call succeeds. -/
theorem safe_history_single_retry_witness :
    safe_history (fun n => if n = 0 then Fetched.err "Too Many Requests" else Fetched.ok 7) =
      ⟨Fetched.ok 7, 2, 30⟩ := by
  have h := (safe_history_single_retry
    (fun n => if n = 0 then Fetched.err "Too Many Requests" else Fetched.ok 7)
    "Too Many Requests").2.1 rfl (by decide)
  exact h

/-- Helper: a successful store lookup is a binding of that key. -/
theorem lookupEntry_mem {α : Type} (st : List (String × ℚ × α)) (key : String) (e : ℚ) (v : α)
    (h : lookupEntry st key = some (e, v)) : (key, e, v) ∈ st := by
  induction st with
  | nil => simp [lookupEntry] at h
  | cons hd tl ih =>
    obtain ⟨k, e0, v0⟩ := hd
    by_cases hk : k = key
    · subst hk
      simp [lookupEntry] at h
      obtain ⟨he, hv⟩ := h
      subst he
      subst hv
      exact List.mem_cons_self _ _
    · rw [show lookupEntry ((k, e0, v0) :: tl) key = lookupEntry tl key from by
        simp [lookupEntry, hk]] at h
      exact List.mem_cons_of_mem _ (ih h)

/-- Helper: after a write, looking up the written key finds the new
binding. -/
theorem lookupEntry_setKey {α : Type} (st : List (String × ℚ × α)) (key : String) (e : ℚ)
    (v : α) : lookupEntry (setKey st key e v) key = some (e, v) := by
  induction st with
  | nil => simp [setKey, lookupEntry]
  | cons hd tl ih =>
    obtain ⟨k, e0, v0⟩ := hd
    by_cases hk : k = key
    · subst hk
      simp [setKey, lookupEntry]
    · simp [setKey, lookupEntry, hk, ih]

/-- Claim C3: TTLCache.get returns absent and deletes the entry exactly
when now has reached the expiry, returns the stored value while now is
before the expiry, returns only values bound to the requested key, and a
value written by set is readable under its key until its ttl elapses. -/
theorem TTLCache_get_spec {α : Type} (c : TTLCache α) (now : ℚ) (key : String) :
    (lookupEntry c.store key = none → c.get now key = (none, c)) ∧
    (∀ e v, lookupEntry c.store key = some (e, v) → now < e →
      c.get now key = (some v, c)) ∧
    (∀ e v, lookupEntry c.store key = some (e, v) → e ≤ now →
      c.get now key = (none, ⟨delKey c.store key, c.maxSize⟩)) ∧
    (∀ v, (c.get now key).1 = some v → ∃ e, (key, e, v) ∈ c.store ∧ now < e) ∧
    (∀ (tset ttl : ℚ) (v : α),
      ((c.set tset key v ttl).get now key).1 =
        if tset + ttl ≤ now then none else some v) := by
  refine ⟨?_, ?_, ?_, ?_, ?_⟩
  · intro h
    simp [TTLCache.get, h]
  · intro e v h he
    simp [TTLCache.get, h, not_le.mpr he]
  · intro e v h he
    simp [TTLCache.get, h, he]
  · intro v hv
    unfold TTLCache.get at hv
    cases h : lookupEntry c.store key with
    | none =>
      rw [h] at hv
      simp at hv
    | some ev =>
      obtain ⟨e, v0⟩ := ev
      rw [h] at hv
      dsimp only at hv
      by_cases he : e ≤ now
      · rw [if_pos he] at hv
        simp at hv
      · rw [if_neg he] at hv
        simp only [Option.some.injEq] at hv
        subst hv
        exact ⟨e, lookupEntry_mem _ _ _ _ h, not_le.mp he⟩
  · intro tset ttl v
    unfold TTLCache.get TTLCache.set
    dsimp only
    rw [lookupEntry_setKey]
    dsimp only
    split_ifs with hle <;> rfl

/-- Witness for TTLCache_get_spec on a one-entry cache: before expiry the
value is returned, at expiry the entry is deleted. -/
theorem TTLCache_get_spec_witness :
    ((⟨[("a", 10, 1)], 300⟩ : TTLCache ℕ).get 5 "a") = (some 1, ⟨[("a", 10, 1)], 300⟩) ∧
    ((⟨[("a", 10, 1)], 300⟩ : TTLCache ℕ).get 10 "a") = (none, ⟨[], 300⟩) := by
  constructor
  · exact (TTLCache_get_spec (⟨[("a", 10, 1)], 300⟩ : TTLCache ℕ) 5 "a").2.1 10 1
      (by decide) (by norm_num)
  · exact (TTLCache_get_spec (⟨[("a", 10, 1)], 300⟩ : TTLCache ℕ) 10 "a").2.2.1 10 1
      (by decide) (by norm_num)

/-- Claim C4: RateLimiter.allow prunes timestamps outside the trailing
window, rejects exactly when the pruned count has reached the limit,
records the call time exactly on accept, touches no other client, and
with limit 3 and window 60 the concrete scenario accepts three calls,
rejects the fourth inside the window and accepts again once the window
has passed. -/
theorem RateLimiter_allow_spec :
    (runAllow ⟨fun _ => [], 3, 60⟩
        [("c", 0), ("c", 10), ("c", 20), ("c", 30), ("c", 90)] =
      [true, true, true, false, true]) ∧
    ∀ (rl : RateLimiter) (c : String) (now : ℚ),
      ((rl.allow c now).1 = false ↔
        rl.limit ≤ ((rl.hits c).filter fun t => now - rl.window < t).length) ∧
      ((rl.allow c now).2.hits c =
        if (rl.allow c now).1 then
          ((rl.hits c).filter fun t => now - rl.window < t) ++ [now]
        else (rl.hits c).filter fun t => now - rl.window < t) ∧
      (∀ u, u ≠ c → (rl.allow c now).2.hits u = rl.hits u) := by
  constructor
  · norm_num [runAllow, RateLimiter.allow, List.filter]
  · intro rl c now
    refine ⟨?_, ?_, ?_⟩
    · unfold RateLimiter.allow
      dsimp only
      by_cases h : rl.limit ≤ ((rl.hits c).filter fun t => now - rl.window < t).length
      · rw [if_pos h]
        simp [h]
      · rw [if_neg h]
        simp [h]
    · unfold RateLimiter.allow
      dsimp only
      by_cases h : rl.limit ≤ ((rl.hits c).filter fun t => now - rl.window < t).length
      · rw [if_pos h]
        simp
      · rw [if_neg h]
        simp
    · intro u hu
      unfold RateLimiter.allow
      dsimp only
      by_cases h : rl.limit ≤ ((rl.hits c).filter fun t => now - rl.window < t).length
      · rw [if_pos h]
        simp [hu]
      · rw [if_neg h]
        simp [hu]

/-- Witness for RateLimiter_allow_spec: a client at its limit is rejected
and an unrelated client key is untouched. -/
theorem RateLimiter_allow_spec_witness :
    ((⟨fun _ => [0], 1, 60⟩ : RateLimiter).allow "c" 10).1 = false ∧
    ((⟨fun _ => [0], 1, 60⟩ : RateLimiter).allow "c" 10).2.hits "d" = [0] := by
  constructor
  · exact ((RateLimiter_allow_spec.2 ⟨fun _ => [0], 1, 60⟩ "c" 10).1).mpr
      (by norm_num [List.filter])
  · exact (RateLimiter_allow_spec.2 ⟨fun _ => [0], 1, 60⟩ "c" 10).2.2 "d" (by decide)

/-- Helper: the RSI rule only emits signals labelled RSI. -/
theorem rsiRule_filter_ne (r : Option ℚ) (nm : String) (h : ("RSI" == nm) = false) :
    (rsiRule r).filter (fun s => s.indicator == nm) = [] := by
  cases r with
  | none => rfl
  | some x =>
    unfold rsiRule
    dsimp only
    split_ifs <;> simp [List.filter, h]

/-- Helper: the stochastic rule only emits signals labelled Stochastic. -/
theorem stochRule_filter_ne (k : Option ℚ) (nm : String)
    (h : ("Stochastic" == nm) = false) :
    (stochRule k).filter (fun s => s.indicator == nm) = [] := by
  cases k with
  | none => rfl
  | some x =>
    unfold stochRule
    dsimp only
    split_ifs <;> simp [List.filter, h]

/-- Helper: the VWAP rule only emits signals labelled VWAP. -/
theorem vwapRule_filter_ne (price : ℚ) (vw : Option ℚ) (nm : String)
    (h : ("VWAP" == nm) = false) :
    (vwapRule price vw).filter (fun s => s.indicator == nm) = [] := by
  cases vw with
  | none => rfl
  | some x =>
    unfold vwapRule
    dsimp only
    split_ifs <;> simp [List.filter, h]

/-- Helper: the Bollinger rule only emits signals labelled Bollinger. -/
theorem bollingerRule_filter_ne (price : ℚ) (bu bl : Option ℚ) (nm : String)
    (h : ("Bollinger" == nm) = false) :
    (bollingerRule price bu bl).filter (fun s => s.indicator == nm) = [] := by
  cases bu with
  | none => rfl
  | some u =>
    cases bl with
    | none => rfl
    | some l =>
      unfold bollingerRule
      dsimp only
      split_ifs <;> simp [List.filter, h]

/-- Helper: the MACD rule only emits signals labelled MACD, so filtering
for MACD keeps its output unchanged. -/
theorem macdRule_filter_self (a b c d : Option ℚ) :
    (macdRule a b c d).filter (fun s => s.indicator == "MACD") = macdRule a b c d := by
  cases a <;> cases b <;> cases c <;> cases d <;> try rfl
  unfold macdRule
  dsimp only
  split_ifs <;> simp [List.filter]

/-- Helper: filtering the Bollinger rule output for Bollinger keeps it
unchanged. -/
theorem bollingerRule_filter_self (price : ℚ) (bu bl : Option ℚ) :
    (bollingerRule price bu bl).filter (fun s => s.indicator == "Bollinger") =
      bollingerRule price bu bl := by
  cases bu <;> cases bl <;> try rfl
  unfold bollingerRule
  dsimp only
  split_ifs <;> simp [List.filter]

/-- Helper: the MACD rule only emits signals labelled MACD. -/
theorem macdRule_filter_ne (a b c d : Option ℚ) (nm : String)
    (h : ("MACD" == nm) = false) :
    (macdRule a b c d).filter (fun s => s.indicator == nm) = [] := by
  cases a <;> cases b <;> cases c <;> cases d <;> try rfl
  unfold macdRule
  dsimp only
  split_ifs <;> simp [List.filter, h]

/-- Helper: on a frame of at least two rows, evaluate runs the five rule
blocks on the last row (cur) and the one before it (prev). -/
theorem evaluate_two_plus (rest : List Row) (prev cur : Row) :
    SignalEngine.evaluate (rest ++ [prev, cur]) =
      rsiRule cur.rsi_14 ++
        macdRule cur.macd cur.macd_signal prev.macd prev.macd_signal ++
        bollingerRule cur.close cur.bb_upper cur.bb_lower ++
        stochRule cur.stoch_k ++
        vwapRule cur.close cur.vwap := by
  unfold SignalEngine.evaluate
  rw [show (rest ++ [prev, cur]).reverse = cur :: prev :: rest.reverse by simp]

/-- Claim C5: with all four MACD values defined the MACD rule emits the
bullish-crossover BUY exactly when previous MACD ≤ previous signal and
current MACD > current signal, the bearish-crossover SELL exactly when
previous MACD ≥ previous signal and current MACD < current signal,
otherwise BUY or SELL by the sign of MACD minus signal, never NEUTRAL;
with any value missing it emits nothing; and within evaluate the MACD
signals of a two-plus-row frame are exactly this rule applied to the
last two rows. -/
theorem macd_rule_spec (m ms pm ps : ℚ) :
    (macdRule (some m) (some ms) (some pm) (some ps) =
        [⟨"MACD", Judgment.BUY, some (roundTo 4 m), "Bullish crossover"⟩] ↔
      pm ≤ ps ∧ ms < m) ∧
    (macdRule (some m) (some ms) (some pm) (some ps) =
        [⟨"MACD", Judgment.SELL, some (roundTo 4 m), "Bearish crossover"⟩] ↔
      ps ≤ pm ∧ m < ms) ∧
    (¬(pm ≤ ps ∧ ms < m) → ¬(ps ≤ pm ∧ m < ms) →
      macdRule (some m) (some ms) (some pm) (some ps) =
        [⟨"MACD", if ms < m then Judgment.BUY else Judgment.SELL, some (roundTo 4 m),
          if ms < m then "MACD above signal" else "MACD below signal"⟩]) ∧
    (∀ s ∈ macdRule (some m) (some ms) (some pm) (some ps),
      s.judgment ≠ Judgment.NEUTRAL) ∧
    (∀ a b c d : Option ℚ, (a = none ∨ b = none ∨ c = none ∨ d = none) →
      macdRule a b c d = []) ∧
    (∀ (rest : List Row) (prev cur : Row),
      (SignalEngine.evaluate (rest ++ [prev, cur])).filter
          (fun s => s.indicator == "MACD") =
        macdRule cur.macd cur.macd_signal prev.macd prev.macd_signal) := by
  refine ⟨?_, ?_, ?_, ?_, ?_, ?_⟩
  · constructor
    · intro h
      unfold macdRule at h
      dsimp only at h
      split_ifs at h with h1 h2 h3
      · exact h1
      · simp at h
      · simp at h
      · simp at h
    · rintro ⟨h1, h2⟩
      simp [macdRule, h1, h2]
  · constructor
    · intro h
      unfold macdRule at h
      dsimp only at h
      split_ifs at h with h1 h2 h3
      · simp at h
      · exact h2
      · simp at h
      · simp at h
    · rintro ⟨h1, h2⟩
      have hn1 : ¬(pm ≤ ps ∧ ms < m) := fun hc => lt_asymm h2 hc.2
      simp [macdRule, hn1, h1, h2]
  · intro hn1 hn2
    unfold macdRule
    dsimp only
    rw [if_neg hn1, if_neg hn2]
    by_cases hm : ms < m
    · rw [if_pos hm, if_pos hm, if_pos hm]
    · rw [if_neg hm, if_neg hm, if_neg hm]
  · intro s hs
    unfold macdRule at hs
    dsimp only at hs
    split_ifs at hs <;> simp at hs <;> subst hs <;> simp
  · intro a b c d h
    rcases h with h | h | h | h
    · subst h
      cases b <;> cases c <;> cases d <;> rfl
    · subst h
      cases a <;> cases c <;> cases d <;> rfl
    · subst h
      cases a <;> cases b <;> cases d <;> rfl
    · subst h
      cases a <;> cases b <;> cases c <;> rfl
  · intro rest prev cur
    rw [evaluate_two_plus, List.filter_append, List.filter_append, List.filter_append,
      List.filter_append, rsiRule_filter_ne _ "MACD" (by decide), macdRule_filter_self,
      bollingerRule_filter_ne _ _ _ "MACD" (by decide),
      stochRule_filter_ne _ "MACD" (by decide), vwapRule_filter_ne _ _ "MACD" (by decide)]
    simp

/-- Witness for macd_rule_spec: a bullish crossover at concrete values. -/
theorem macd_rule_spec_witness :
    macdRule (some 2) (some 1) (some 0) (some 0) =
      [⟨"MACD", Judgment.BUY, some (roundTo 4 2), "Bullish crossover"⟩] :=
  ((macd_rule_spec 2 1 0 0).1).mpr ⟨le_refl 0, by norm_num⟩

/-- Claim C6 counterexample: both bands defined (bb_upper 5, bb_lower 0)
and the close at -1 sits at or below the lower band, yet the rule emits
nothing, because line 267 tests truthiness and a zero band is falsy. -/
theorem bollinger_zero_band_cex :
    (some (5 : ℚ)).isSome = true ∧ (some (0 : ℚ)).isSome = true ∧
    (-1 : ℚ) ≤ 0 ∧
    bollingerRule (-1) (some 5) (some 0) = [] := by
  refine ⟨rfl, rfl, by norm_num, ?_⟩
  simp [bollingerRule]

/-- Claim C6 (amended): with both bands defined and nonzero the rule
emits SELL exactly when close ≥ upper band (boundary inclusive), BUY
exactly when close ≤ lower band and below the upper, NEUTRAL exactly
when strictly inside, always emitting exactly one signal; it is skipped
exactly when a band is undefined or equal to zero; and within evaluate
the Bollinger signals of a two-plus-row frame are exactly this rule on
the last row. -/
theorem bollinger_rule_spec (price u l : ℚ) (hu : u ≠ 0) (hl : l ≠ 0) :
    (bollingerRule price (some u) (some l) =
        [⟨"Bollinger", Judgment.SELL, none, "Price at upper band"⟩] ↔ u ≤ price) ∧
    (bollingerRule price (some u) (some l) =
        [⟨"Bollinger", Judgment.BUY, none, "Price at lower band"⟩] ↔
      price ≤ l ∧ price < u) ∧
    (bollingerRule price (some u) (some l) =
        [⟨"Bollinger", Judgment.NEUTRAL, none, "Price inside bands"⟩] ↔
      l < price ∧ price < u) ∧
    (bollingerRule price (some u) (some l)).length = 1 ∧
    (∀ (price2 : ℚ) (bu bl : Option ℚ),
      (bu = none ∨ bl = none ∨ bu = some 0 ∨ bl = some 0) →
        bollingerRule price2 bu bl = []) ∧
    (∀ (rest : List Row) (prev cur : Row),
      (SignalEngine.evaluate (rest ++ [prev, cur])).filter
          (fun s => s.indicator == "Bollinger") =
        bollingerRule cur.close cur.bb_upper cur.bb_lower) := by
  have hcond : u ≠ 0 ∧ l ≠ 0 := ⟨hu, hl⟩
  refine ⟨?_, ?_, ?_, ?_, ?_, ?_⟩
  · constructor
    · intro h
      unfold bollingerRule at h
      dsimp only at h
      rw [if_pos hcond] at h
      split_ifs at h with h1 h2
      · exact h1
      · simp at h
      · simp at h
    · intro h1
      unfold bollingerRule
      dsimp only
      rw [if_pos hcond, if_pos h1]
  · constructor
    · intro h
      unfold bollingerRule at h
      dsimp only at h
      rw [if_pos hcond] at h
      split_ifs at h with h1 h2
      · simp at h
      · exact ⟨h2, not_le.mp h1⟩
      · simp at h
    · rintro ⟨ha, hb⟩
      unfold bollingerRule
      dsimp only
      rw [if_pos hcond, if_neg (not_le.mpr hb), if_pos ha]
  · constructor
    · intro h
      unfold bollingerRule at h
      dsimp only at h
      rw [if_pos hcond] at h
      split_ifs at h with h1 h2
      · simp at h
      · simp at h
      · exact ⟨not_le.mp h2, not_le.mp h1⟩
    · rintro ⟨ha, hb⟩
      unfold bollingerRule
      dsimp only
      rw [if_pos hcond, if_neg (not_le.mpr hb), if_neg (not_le.mpr ha)]
  · unfold bollingerRule
    dsimp only
    rw [if_pos hcond]
    split_ifs <;> rfl
  · intro price2 bu bl h
    rcases h with h | h | h | h
    · subst h
      rfl
    · subst h
      cases bu <;> rfl
    · subst h
      cases bl with
      | none => rfl
      | some x => simp [bollingerRule]
    · subst h
      cases bu with
      | none => rfl
      | some x => simp [bollingerRule]
  · intro rest prev cur
    rw [evaluate_two_plus, List.filter_append, List.filter_append, List.filter_append,
      List.filter_append, rsiRule_filter_ne _ "Bollinger" (by decide),
      macdRule_filter_ne _ _ _ _ "Bollinger" (by decide), bollingerRule_filter_self,
      stochRule_filter_ne _ "Bollinger" (by decide),
      vwapRule_filter_ne _ _ "Bollinger" (by decide)]
    simp

/-- Witness for bollinger_rule_spec: a close exactly at the upper band
yields SELL. -/
theorem bollinger_rule_spec_witness :
    bollingerRule 5 (some 5) (some 1) =
      [⟨"Bollinger", Judgment.SELL, none, "Price at upper band"⟩] :=
  ((bollinger_rule_spec 5 5 1 (by norm_num) (by norm_num)).1).mpr le_rfl

/-- Claim C7: the overall judgment is BUY exactly when BUY signals
outnumber SELL signals, SELL exactly when SELL signals outnumber BUY
signals, NEUTRAL exactly on ties, and the empty signal list (a 0-0 tie)
gives NEUTRAL. -/
theorem overall_judgment_spec (sigs : List Signal) :
    (overallJudgment sigs = Judgment.BUY ↔
      countJudgment sigs Judgment.SELL < countJudgment sigs Judgment.BUY) ∧
    (overallJudgment sigs = Judgment.SELL ↔
      countJudgment sigs Judgment.BUY < countJudgment sigs Judgment.SELL) ∧
    (overallJudgment sigs = Judgment.NEUTRAL ↔
      countJudgment sigs Judgment.BUY = countJudgment sigs Judgment.SELL) ∧
    overallJudgment [] = Judgment.NEUTRAL := by
  have hlast : overallJudgment [] = Judgment.NEUTRAL := by
    simp [overallJudgment, countJudgment]
  rcases lt_trichotomy (countJudgment sigs Judgment.SELL) (countJudgment sigs Judgment.BUY)
    with h | h | h
  · exact ⟨by simp [overallJudgment, h], by simp [overallJudgment, h, lt_asymm h],
      by simp [overallJudgment, h, ne_of_gt h], hlast⟩
  · exact ⟨by simp [overallJudgment, h, lt_irrefl], by simp [overallJudgment, h, lt_irrefl],
      by simp [overallJudgment, h, lt_irrefl], hlast⟩
  · exact ⟨by simp [overallJudgment, h, lt_asymm h], by simp [overallJudgment, h, lt_asymm h],
      by simp [overallJudgment, h, lt_asymm h, ne_of_lt h], hlast⟩

/-- Claim C8 counterexample: with high 1 and low 0 the 23.6 percent level
is 0.76, not the exact value 0.764 of the formula high - p(high - low),
because every level passes through round(, 2). -/
theorem fibonacci_round_cex :
    ("23.6%", (76 : ℚ) / 100) ∈ get_fibonacci 1 0 ∧
    (76 : ℚ) / 100 ≠ 1 - 236 / 1000 * (1 - 0) := by
  constructor
  · have h : roundTo 2 ((1 : ℚ) - 236 / 1000 * (1 - 0)) = 76 / 100 := by
      rw [roundTo, round_eq]
      norm_num
    unfold get_fibonacci
    rw [h]
    simp
  · norm_num

/-- Claim C8 (amended): the Fibonacci endpoint on high 100, low 0 returns
exactly the advertised seven levels, and in general each level for ratio
p is high - p(high - low) rounded to two decimals, including the 0 and
100 percent endpoints. -/
theorem fibonacci_levels_spec :
    get_fibonacci 100 0 =
      [("0.0%", 100), ("23.6%", 764 / 10), ("38.2%", 618 / 10), ("50.0%", 50),
       ("61.8%", 382 / 10), ("78.6%", 214 / 10), ("100.0%", 0)] ∧
    ∀ hi lo : ℚ,
      get_fibonacci hi lo =
        [("0.0%", roundTo 2 (hi - 0 / 1000 * (hi - lo))),
         ("23.6%", roundTo 2 (hi - 236 / 1000 * (hi - lo))),
         ("38.2%", roundTo 2 (hi - 382 / 1000 * (hi - lo))),
         ("50.0%", roundTo 2 (hi - 500 / 1000 * (hi - lo))),
         ("61.8%", roundTo 2 (hi - 618 / 1000 * (hi - lo))),
         ("78.6%", roundTo 2 (hi - 786 / 1000 * (hi - lo))),
         ("100.0%", roundTo 2 (hi - 1000 / 1000 * (hi - lo)))] := by
  constructor
  · unfold get_fibonacci
    norm_num [roundTo, round_eq]
  · intro hi lo
    have h0 : hi - 0 / 1000 * (hi - lo) = hi := by ring
    have h1 : hi - 1000 / 1000 * (hi - lo) = lo := by ring
    rw [h0, h1]
    rfl

/-- Helper: removing, one by one, the elements of a list that avoids x
from a list starting with x leaves the head in place. -/
theorem foldl_removeFirst_cons_ne (ds : List ℕ) (x : ℕ) :
    ∀ xs : List ℕ, (∀ d ∈ ds, d ≠ x) →
      ds.foldl removeFirst (x :: xs) = x :: ds.foldl removeFirst xs := by
  induction ds with
  | nil =>
    intro xs h
    rfl
  | cons d ds ih =>
    intro xs h
    have hd : x ≠ d := Ne.symm (h d (List.mem_cons_self d ds))
    rw [List.foldl_cons, List.foldl_cons,
      show removeFirst (x :: xs) d = x :: removeFirst xs d from by simp [removeFirst, hd]]
    exact ih (removeFirst xs d) fun a ha => h a (List.mem_cons_of_mem d ha)

/-- Helper: removing the failed elements of a list from that same list,
first occurrence by first occurrence, is the same as keeping the
non-failed elements. -/
theorem foldl_removeFirst_filter (l : List ℕ) (f : ℕ → Bool) :
    (l.filter f).foldl removeFirst l = l.filter fun c => !f c := by
  induction l with
  | nil => rfl
  | cons x xs ih =>
    by_cases hx : f x = true
    · have h1 : (x :: xs).filter f = x :: xs.filter f := by simp [List.filter_cons, hx]
      have h2 : (x :: xs).filter (fun c => !f c) = xs.filter (fun c => !f c) := by
        simp [List.filter_cons, hx]
      rw [h1, h2, List.foldl_cons,
        show removeFirst (x :: xs) x = xs from by simp [removeFirst]]
      exact ih
    · have hfx : f x = false := by
        revert hx
        cases f x <;> simp
      have h1 : (x :: xs).filter f = xs.filter f := by simp [List.filter_cons, hfx]
      have h2 : (x :: xs).filter (fun c => !f c) = x :: xs.filter (fun c => !f c) := by
        simp [List.filter_cons, hfx]
      have hne : ∀ d ∈ xs.filter f, d ≠ x := by
        intro d hd hdx
        subst hdx
        have hfd := (List.mem_filter.mp hd).2
        rw [hfx] at hfd
        exact Bool.false_ne_true hfd
      rw [h1, h2, foldl_removeFirst_cons_ne (xs.filter f) x xs hne, ih]

/-- Helper: the broadcast removal pass changes only the list bound to the
broadcast ticker, by folding the dead list into it. -/
theorem poolLookup_map_fold (pool : List (String × List ℕ)) (t : String) (dead : List ℕ) :
    poolLookup (pool.map fun e => if e.1 = t then (e.1, dead.foldl removeFirst e.2) else e) t =
      (poolLookup pool t).map fun l => dead.foldl removeFirst l := by
  induction pool with
  | nil => rfl
  | cons hd tl ih =>
    obtain ⟨k, l⟩ := hd
    rw [List.map_cons]
    dsimp only
    by_cases hk : k = t
    · rw [if_pos hk]
      simp [poolLookup, hk, ih]
    · rw [if_neg hk]
      simp [poolLookup, hk, ih]

/-- Helper: the broadcast removal pass leaves every other key bound to
its original list. -/
theorem poolLookup_map_fold_ne (pool : List (String × List ℕ)) (t u : String)
    (dead : List ℕ) (hu : u ≠ t) :
    poolLookup (pool.map fun e => if e.1 = t then (e.1, dead.foldl removeFirst e.2) else e)
        u =
      poolLookup pool u := by
  induction pool with
  | nil => rfl
  | cons hd tl ih =>
    obtain ⟨k, l⟩ := hd
    rw [List.map_cons]
    dsimp only
    by_cases hk : k = t
    · rw [if_pos hk]
      by_cases hku : k = u
      · exact absurd (hku.symm.trans hk) hu
      · simp [poolLookup, hku, ih]
    · rw [if_neg hk]
      by_cases hku : k = u
      · simp [poolLookup, hku]
      · simp [poolLookup, hku, ih]

/-- Helper: the disconnect removal pass updates the list bound to the
ticker by removing the first occurrence of the connection. -/
theorem poolLookup_map_rm (pool : List (String × List ℕ)) (t : String) (ws : ℕ) :
    poolLookup (pool.map fun e => if e.1 = t then (e.1, removeFirst e.2 ws) else e) t =
      (poolLookup pool t).map fun l => removeFirst l ws := by
  induction pool with
  | nil => rfl
  | cons hd tl ih =>
    obtain ⟨k, l⟩ := hd
    rw [List.map_cons]
    dsimp only
    by_cases hk : k = t
    · rw [if_pos hk]
      simp [poolLookup, hk, ih]
    · rw [if_neg hk]
      simp [poolLookup, hk, ih]

/-- Helper: dropping every binding of a key makes its lookup absent. -/
theorem poolLookup_filter_out (pool : List (String × List ℕ)) (t : String) :
    poolLookup (pool.filter fun e => decide (e.1 ≠ t)) t = none := by
  induction pool with
  | nil => rfl
  | cons hd tl ih =>
    obtain ⟨k, l⟩ := hd
    simp only [decide_not] at ih ⊢
    rw [List.filter_cons]
    by_cases hk : k = t
    · rw [show (!decide ((k, l).1 = t)) = false from by simp [hk]]
      simp [ih]
    · rw [show (!decide ((k, l).1 = t)) = true from by simp [hk]]
      simp [poolLookup, hk, ih]

/-- Claim C9: broadcast removes from the subscriber list of the ticker
exactly the connections whose send failed, leaves every other ticker
untouched, and keeps the ticker key present even when the list empties;
disconnect, in contrast, drops the key once its last subscriber leaves. -/
theorem ws_broadcast_frame_spec (m : WSManager) (t : String) (sendFails : ℕ → Bool) :
    (∀ l, poolLookup m.pool t = some l →
      poolLookup (m.broadcast t sendFails).pool t =
        some (l.filter fun c => !sendFails c)) ∧
    (∀ u, u ≠ t →
      poolLookup (m.broadcast t sendFails).pool u = poolLookup m.pool u) ∧
    ((poolLookup (m.broadcast t sendFails).pool t).isSome =
      (poolLookup m.pool t).isSome) ∧
    (∀ ws, poolLookup m.pool t = some [ws] →
      poolLookup (m.disconnect t ws).pool t = none) := by
  refine ⟨?_, ?_, ?_, ?_⟩
  · intro l hl
    unfold WSManager.broadcast
    dsimp only
    rw [poolLookup_map_fold, hl, show poolGet m.pool t = l from by simp [poolGet, hl],
      Option.map_some', foldl_removeFirst_filter]
  · intro u hu
    unfold WSManager.broadcast
    dsimp only
    rw [poolLookup_map_fold_ne _ _ _ _ hu]
  · unfold WSManager.broadcast
    dsimp only
    rw [poolLookup_map_fold]
    cases poolLookup m.pool t <;> rfl
  · intro ws hws
    unfold WSManager.disconnect
    dsimp only
    have hget : poolGet m.pool t = [ws] := by simp [poolGet, hws]
    rw [hget, if_pos (List.mem_singleton_self ws)]
    have hp1 :
        poolLookup (m.pool.map fun e => if e.1 = t then (e.1, removeFirst e.2 ws) else e) t =
          some [] := by
      rw [poolLookup_map_rm, hws]
      simp [removeFirst]
    rw [if_pos hp1]
    exact poolLookup_filter_out _ t

/-- Witness for ws_broadcast_frame_spec on a concrete pool: broadcasting
with connection 1 failing keeps key A with subscriber 2 only, and
disconnecting the last subscriber of B removes the key B. -/
theorem ws_broadcast_frame_spec_witness :
    poolLookup ((WSManager.mk [("A", [1, 2]), ("B", [3])]).broadcast "A"
        (fun c => c == 1)).pool "A" = some [2] ∧
    poolLookup ((WSManager.mk [("B", [3])]).disconnect "B" 3).pool "B" = none := by
  constructor
  · exact (ws_broadcast_frame_spec ⟨[("A", [1, 2]), ("B", [3])]⟩ "A" (fun c => c == 1)).1
      [1, 2] rfl
  · exact (ws_broadcast_frame_spec ⟨[("B", [3])]⟩ "B" (fun _ => false)).2.2.2 3 rfl

/-- Claim C10: on a single-bar history the quote computation is total and
emits prev_close 0, change equal to the reported last price, and percent
change 0, the division being skipped by the truthiness guard. -/
theorem quote_single_bar_spec (p : ℚ) :
    fetch_quote_calc [p] = some ⟨roundTo 2 p, roundTo 2 p, 0, 0⟩ ∧
    (fetch_quote_calc [p]).isSome = true := by
  have h : fetch_quote_calc [p] = some ⟨roundTo 2 p, roundTo 2 p, 0, 0⟩ := by
    unfold fetch_quote_calc
    simp [roundTo]
  exact ⟨h, by rw [h]; rfl⟩

/-- Witness for yahoo_throttle_min_gap_between_starts on a concrete run:
the second call starts at least MIN_GAP after the first. -/
theorem yahoo_throttle_min_gap_between_starts_witness :
    (2 : ℚ) + YAHOO_MIN_GAP ≤ 4 := by
  have h := yahoo_throttle_min_gap_between_starts 0 2 [(0, 1), (0, 0)]
  rw [show runCalls 0 2 [(0, 1), (0, 0)] = [(2, 3), (4, 4)] from by
    norm_num [runCalls, yahoo_throttle, YAHOO_MIN_GAP]] at h
  exact (List.pairwise_cons.mp h).1 (4, 4) (List.mem_cons_self _ _)

/-- Witness for overall_judgment_spec: the empty signal list is NEUTRAL. -/
theorem overall_judgment_spec_witness :
    overallJudgment [] = Judgment.NEUTRAL :=
  (overall_judgment_spec []).2.2.2

/-- Witness for fibonacci_levels_spec: the uniform level formula at the
high 100 low 0 instance. -/
theorem fibonacci_levels_spec_witness :
    get_fibonacci 100 0 =
      [("0.0%", roundTo 2 ((100 : ℚ) - 0 / 1000 * (100 - 0))),
       ("23.6%", roundTo 2 ((100 : ℚ) - 236 / 1000 * (100 - 0))),
       ("38.2%", roundTo 2 ((100 : ℚ) - 382 / 1000 * (100 - 0))),
       ("50.0%", roundTo 2 ((100 : ℚ) - 500 / 1000 * (100 - 0))),
       ("61.8%", roundTo 2 ((100 : ℚ) - 618 / 1000 * (100 - 0))),
       ("78.6%", roundTo 2 ((100 : ℚ) - 786 / 1000 * (100 - 0))),
       ("100.0%", roundTo 2 ((100 : ℚ) - 1000 / 1000 * (100 - 0)))] :=
  fibonacci_levels_spec.2 100 0

/-- Witness for quote_single_bar_spec at the single bar 3. -/
theorem quote_single_bar_spec_witness :
    fetch_quote_calc [3] = some ⟨roundTo 2 3, roundTo 2 3, 0, 0⟩ :=
  (quote_single_bar_spec 3).1

end StockApi
